import Mathlib

/-!
Shallow embedding of the WARC record parser and streaming reader from
`src/src/lib.rs` (crate `rust-warc`).

Modelling conventions:
* The byte stream (Rust `impl BufRead`) is a finite `List Nat` of byte
  values; end of input is the end of the list.  With an in-memory source the
  only I/O failures the Rust code can see are the `UnexpectedEof` errors
  produced by `read_exact`, modelled by `readExact` returning `none`.
* Rust `String`s that hold line data are modelled as byte lists as well
  (the inputs of interest are ASCII; `char::is_whitespace` restricted to
  ASCII is the byte set {9, 10, 11, 12, 13, 32}).
* `usize` arithmetic on the byte accumulator is modelled by `Nat`; within a
  single `parse` call every subtraction is of an amount previously added,
  so no wrap-around can occur in the Rust code on the paths modelled here.
* The header loop of `WarcRecord::parse` is defined with an explicit fuel
  argument (`headerLoopF`) so that the definition is structurally
  recursive and evaluates by kernel reduction; each loop iteration
  consumes at least one byte of the stream, so fuel `s.length + 1` is
  always sufficient (`headerLoop` instantiates it this way).
-/

deriving instance DecidableEq for Except

/-- ASCII whitespace, the restriction of Rust `char::is_whitespace` to
single-byte characters: HT, LF, VT, FF, CR, SP. -/
def isWhite (b : Nat) : Bool :=
  b == 9 || b == 10 || b == 11 || b == 12 || b == 13 || b == 32

/-- Rust helper `rtrim` (lib.rs:37): `s.truncate(s.trim_end().len())`,
i.e. remove trailing whitespace. -/
def rtrim (s : List Nat) : List Nat :=
  (s.reverse.dropWhile isWhite).reverse

/-- Remove leading whitespace (the leading half of Rust `str::trim`). -/
def ltrim (s : List Nat) : List Nat :=
  s.dropWhile isWhite

/-- Rust `str::trim`: remove whitespace at both ends. -/
def trimBytes (s : List Nat) : List Nat :=
  ltrim (rtrim s)

/-- ASCII lowercasing of one byte (`u8::make_ascii_lowercase`). -/
def lowerByte (b : Nat) : Nat :=
  if 65 ≤ b ∧ b ≤ 90 then b + 32 else b

/-- `str::make_ascii_lowercase` over the whole text. -/
def lowerAscii (s : List Nat) : List Nat :=
  s.map lowerByte

/-- Bytes of a (ASCII) Rust string literal. -/
def strBytes (s : String) : List Nat :=
  s.toList.map Char.toNat

/-- `CaseString` (lib.rs:55): wrapper holding only the normalized
(ASCII-lowercased) form; the derived equality compares that form. -/
structure CaseString where
  inner : List Nat
deriving DecidableEq

/-- `CaseString::from` (lib.rs:70): lowercase in place, store the result. -/
def CaseString.fromList (s : List Nat) : CaseString :=
  ⟨lowerAscii s⟩

/-- `impl Into<String> for CaseString` (lib.rs:83): yields the stored,
normalized text. -/
def CaseString.toList (c : CaseString) : List Nat :=
  c.inner

/-- The record's header mapping, `HashMap<CaseString, String>`, modelled as
an association list with unique keys. -/
abbrev HeaderMap := List (CaseString × List Nat)

/-- `HashMap::insert`: replace the binding for `k` if present, otherwise
append it. -/
def hmInsert (k : CaseString) (v : List Nat) : HeaderMap → HeaderMap
  | [] => [(k, v)]
  | (k2, v2) :: rest =>
    if k2 = k then (k, v) :: rest else (k2, v2) :: hmInsert k v rest

/-- `HashMap::get`: the value bound to `k`, if any. -/
def hmGet (k : CaseString) : HeaderMap → Option (List Nat)
  | [] => none
  | (k2, v2) :: rest => if k2 = k then some v2 else hmGet k rest

/-- `WarcError` (lib.rs:276).  `ioError` models `WarcError::IO`; the
underlying `std::io::Error` payload is dropped (with a pure in-memory
source the only possible cause is an unexpected end of input). -/
inductive WarcError where
  | Malformed : String → WarcError
  | ioError : WarcError
  | EOF : WarcError
deriving DecidableEq

/-- `WarcRecord` (lib.rs:123): version string, header fields, content. -/
structure WarcRecord where
  version : List Nat
  header : HeaderMap
  content : List Nat
deriving DecidableEq

/-- `BufRead::read_line`: consume bytes up to and including the first LF
(byte 10), or up to end of input; returns the line read and the rest. -/
def readLine : List Nat → List Nat × List Nat
  | [] => ([], [])
  | b :: rest =>
    if b = 10 then ([b], rest)
    else
      let r := readLine rest
      (b :: r.1, r.2)

/-- `Read::read_exact` into a buffer of length `n`: `none` models the
`UnexpectedEof` I/O error of a short read. -/
def readExact (n : Nat) (s : List Nat) : Option (List Nat × List Nat) :=
  if n ≤ s.length then some (s.take n, s.drop n) else none

/-- `if let Some((key, value)) = std::mem::replace(&mut continuation, None)
\x7b header.insert(key, value); \x7d` (lib.rs:194 and lib.rs:213). -/
def flushCont (cont : Option (CaseString × List Nat)) (m : HeaderMap) : HeaderMap :=
  match cont with
  | some kv => hmInsert kv.1 kv.2 m
  | none => m

/-- Outcome of the header-block loop of `WarcRecord::parse`
(lib.rs:164-210): either `break` out of the loop with the map built so
far, the pending continuation pair, the updated accumulator, the updated
`headers_len` and the remaining stream, or an early `return Err` carrying
the (rolled-back) accumulator and the remaining stream. -/
inductive LoopOut where
  | brk : HeaderMap → Option (CaseString × List Nat) → Nat → Nat → List Nat → LoopOut
  | err : WarcError → Nat → List Nat → LoopOut
deriving DecidableEq

/-- The header-block loop of `WarcRecord::parse` (lib.rs:164-210), with an
explicit fuel argument for structural recursion.  Each iteration reads one
line; when the stream is empty that line is empty, has no colon, and the
loop returns `Malformed "Invalid header field"`, so the loop runs at most
`s.length + 1` iterations and the fuel-0 filler (which repeats the
empty-stream result) is never reached for fuel `> s.length`.
In the colon branch the Rust code flushes the pending pair into the map
before splitting the line; flushing is observationally moved inside the
`some` branch here (the `none` branch returns an error, discarding the
map). -/
def headerLoopF : Nat → List Nat → Nat → Nat → Nat →
    Option (CaseString × List Nat) → HeaderMap → LoopOut
  | 0, s, sum, versionLen, headersLen, _cont, _header =>
    LoopOut.err (WarcError.Malformed "Invalid header field")
      (sum - versionLen - headersLen) s
  | fuel+1, s, sum, versionLen, headersLen, cont, header =>
    let line := (readLine s).1
    let rest := (readLine s).2
    if line = [13, 10] then
      LoopOut.brk header cont (sum + line.length) (headersLen + line.length) rest
    else if (rtrim line).head? = some 32 ∨ (rtrim line).head? = some 9 then
      match cont with
      | some kv =>
        headerLoopF fuel rest (sum + line.length) versionLen
          (headersLen + line.length)
          (some (kv.1, kv.2 ++ 10 :: trimBytes (rtrim line))) header
      | none =>
        LoopOut.err (WarcError.Malformed "Invalid header block")
          (sum + line.length - versionLen - (headersLen + line.length)) rest
    else
      match List.findIdx? (fun b => b == 58) (rtrim line) with
      | some i =>
        headerLoopF fuel rest (sum + line.length) versionLen
          (headersLen + line.length)
          (some (CaseString.fromList (rtrim (List.take i (rtrim line))),
                 trimBytes (List.drop (i + 1) (rtrim line))))
          (flushCont cont header)
      | none =>
        LoopOut.err (WarcError.Malformed "Invalid header field")
          (sum + line.length - versionLen - (headersLen + line.length)) rest

/-- The header-block loop with always-sufficient fuel. -/
def headerLoop (s : List Nat) (sum versionLen headersLen : Nat)
    (cont : Option (CaseString × List Nat)) (header : HeaderMap) : LoopOut :=
  headerLoopF (s.length + 1) s sum versionLen headersLen cont header

/-- Rust `str::parse::<usize>`: an optional leading `+`, then one or more
ASCII digits and nothing else.  The value is modelled as an unbounded
`Nat` (spec §4.2: no upper bound beyond available memory). -/
def parseUsize (s : List Nat) : Option Nat :=
  let digits := match s with
    | 43 :: rest => rest
    | _ => s
  if digits ≠ [] ∧ digits.all (fun b => 48 ≤ b && b ≤ 57) then
    some (digits.foldl (fun a b => a * 10 + (b - 48)) 0)
  else none

/-- The bytes of the literal `"WARC/1."`. -/
def warcMark : List Nat := strBytes "WARC/1."

/-- `str::starts_with` on byte lists. -/
def listStartsWith (s p : List Nat) : Bool :=
  s.take p.length == p

/-- Trailer step of `WarcRecord::parse` (lib.rs:247-262): read exactly 4
bytes (short read fails I/O with the accumulator rolled back), then require
them to be CR LF CR LF.  On a mismatch the Rust code subtracts
`version_len + headers_len + content_len` from the accumulator but not the
4 it just added for the trailer; that behavior is reproduced verbatim. -/
def readTrailer (s3 : List Nat) (sum3 versionLen headersLen contentLen : Nat) :
    Except WarcError Unit × Nat × List Nat :=
  match readExact 4 s3 with
  | none =>
    (Except.error WarcError.ioError,
     sum3 - versionLen - headersLen - contentLen, s3)
  | some (lf, s4) =>
    if lf = [13, 10, 13, 10] then (Except.ok (), sum3 + 4, s4)
    else
      (Except.error (WarcError.Malformed "No double linefeed after record content"),
       sum3 + 4 - versionLen - headersLen - contentLen, s4)

/-- The part of `WarcRecord::parse` after the header block has been read
and the leftover continuation flushed (lib.rs:217-270): Content-Length
lookup and numeric parse, content read, trailer check, record assembly.
`versionT` is the trimmed version line, `sum2` the accumulator after the
header block, `s2` the remaining stream. -/
def parseTail (header : HeaderMap) (versionT : List Nat)
    (sum2 versionLen headersLen : Nat) (s2 : List Nat) :
    Except WarcError WarcRecord × Nat × List Nat :=
  match hmGet (CaseString.fromList (strBytes "Content-Length")) header with
  | none =>
    (Except.error (WarcError.Malformed "Content-Length is missing"),
     sum2 - versionLen - headersLen, s2)
  | some clv =>
    match parseUsize clv with
    | none =>
      (Except.error (WarcError.Malformed "Content-Length is not a number"),
       sum2 - versionLen - headersLen, s2)
    | some contentLen =>
      match readExact contentLen s2 with
      | none =>
        (Except.error WarcError.ioError,
         sum2 - versionLen - headersLen, s2)
      | some (content, s3) =>
        let sum3 := sum2 + contentLen
        match readTrailer s3 sum3 versionLen headersLen contentLen with
        | (Except.error e, sum4, s4) => (Except.error e, sum4, s4)
        | (Except.ok _, sum4, s4) =>
          (Except.ok ⟨versionT, header, content⟩, sum4, s4)

/-- `WarcRecord::parse` (lib.rs:133-271).  Takes the input stream and the
byte accumulator `sum`; returns the result, the accumulator after the call
and the remaining stream.  In branches that return an error the remaining
stream is reported as it stands (after a failed `read_exact` the source
position is unspecified in Rust and never observed: the streaming reader
poisons itself on any such error). -/
def WarcRecord.parse (input : List Nat) (sum : Nat) :
    Except WarcError WarcRecord × Nat × List Nat :=
  let version := (readLine input).1
  let s1 := (readLine input).2
  let versionLen := version.length
  let sum1 := sum + versionLen
  if version = [] then (Except.error WarcError.EOF, sum1, s1)
  else if listStartsWith (rtrim version) warcMark = false then
    (Except.error (WarcError.Malformed "Unknown WARC version"), sum1 - versionLen, s1)
  else
    match headerLoop s1 sum1 versionLen 0 none [] with
    | LoopOut.err e sum2 s2 => (Except.error e, sum2, s2)
    | LoopOut.brk header0 cont sum2 headersLen s2 =>
      parseTail (flushCont cont header0) (rtrim version) sum2 versionLen headersLen s2

/-- `WarcReader` (lib.rs:299): remaining stream, byte accumulator, and the
poison flag `valid_state`. -/
structure WarcReader where
  read : List Nat
  sum : Nat
  valid_state : Bool
deriving DecidableEq

/-- `WarcReader::new` (lib.rs:307). -/
def WarcReader.new (s : List Nat) : WarcReader :=
  ⟨s, 0, true⟩

/-- `Iterator::next for WarcReader` (lib.rs:319-332): yield nothing when
poisoned; otherwise parse one record, converting `EOF` to end-of-sequence
and poisoning the reader on any other error. -/
def WarcReader.next (r : WarcReader) : Option (Except WarcError WarcRecord) × WarcReader :=
  if r.valid_state = false then (none, r)
  else
    match WarcRecord.parse r.read r.sum with
    | (Except.ok item, sum2, rest) => (some (Except.ok item), ⟨rest, sum2, true⟩)
    | (Except.error WarcError.EOF, sum2, rest) => (none, ⟨rest, sum2, r.valid_state⟩)
    | (Except.error e, sum2, rest) => (some (Except.error e), ⟨rest, sum2, false⟩)

/-- Advance the reader state through `n` pulls, discarding the items. -/
def WarcReader.skip : WarcReader → Nat → WarcReader
  | r, 0 => r
  | r, n+1 => (WarcReader.next r).2.skip n

/-- Concatenation of a list of header lines (each line carries its own
terminator bytes). -/
def catLines : List (List Nat) → List Nat
  | [] => []
  | l :: ls => l ++ catLines ls

/-- A header line as `read_line` delivers it inside the header block: it
ends with the single LF that terminated the read, and it is not the blank
`"\x0d\n"` line that ends the block. -/
def IsLineGood (l : List Nat) : Prop :=
  (∃ b, l = b ++ [10] ∧ 10 ∉ b) ∧ l ≠ [13, 10]

/-- One non-blank iteration of the header loop, phrased on the line alone:
`none` when the iteration would return an error, otherwise the new pending
pair and map.  Mirrors lib.rs:182-209. -/
def procLine (line : List Nat) (cont : Option (CaseString × List Nat))
    (m : HeaderMap) : Option (Option (CaseString × List Nat) × HeaderMap) :=
  if (rtrim line).head? = some 32 ∨ (rtrim line).head? = some 9 then
    match cont with
    | some kv => some (some (kv.1, kv.2 ++ 10 :: trimBytes (rtrim line)), m)
    | none => none
  else
    match List.findIdx? (fun b => b == 58) (rtrim line) with
    | some i =>
      some (some (CaseString.fromList (rtrim (List.take i (rtrim line))),
                  trimBytes (List.drop (i + 1) (rtrim line))),
            flushCont cont m)
    | none => none

/-- `procLine` iterated over a list of header lines. -/
def procLines : List (List Nat) → Option (CaseString × List Nat) → HeaderMap →
    Option (Option (CaseString × List Nat) × HeaderMap)
  | [], cont, m => some (cont, m)
  | l :: ls, cont, m =>
    match procLine l cont m with
    | some cm => procLines ls cm.1 cm.2
    | none => none

/-- Wire format of one record (spec §6): version line, header lines, blank
line, content, 4-byte trailer, then the rest of the stream. -/
def encodeRec (vbody : List Nat) (lines : List (List Nat))
    (content rest : List Nat) : List Nat :=
  vbody ++ 10 :: (catLines lines ++ 13 :: 10 :: (content ++ 13 :: 10 :: 13 :: 10 :: rest))

theorem readLine_append (b t : List Nat) (hb : 10 ∉ b) :
    readLine (b ++ 10 :: t) = (b ++ [10], t) := by
  induction b with
  | nil => simp [readLine]
  | cons x xs ih =>
    have hx : ¬ x = 10 := by
      intro h; exact hb (by simp [h])
    have hxs : 10 ∉ xs := fun h => hb (List.mem_cons_of_mem _ h)
    simp only [List.cons_append, readLine, if_neg hx, List.append_eq, ih hxs]

theorem readExact_append (a b : List Nat) :
    readExact a.length (a ++ b) = some (a, b) := by
  simp [readExact, List.take_left, List.drop_left]

theorem headerLoopF_step (fuel : Nat) (b t : List Nat) (sum vlen hl : Nat)
    (cont cont2 : Option (CaseString × List Nat)) (m m2 : HeaderMap)
    (hb : 10 ∉ b) (hne : b ++ [10] ≠ [13, 10])
    (hp : procLine (b ++ [10]) cont m = some (cont2, m2)) :
    headerLoopF (fuel + 1) (b ++ 10 :: t) sum vlen hl cont m =
      headerLoopF fuel t (sum + (b.length + 1)) vlen (hl + (b.length + 1)) cont2 m2 := by
  have hrl := readLine_append b t hb
  simp only [headerLoopF, hrl, List.length_append, List.length_cons, List.length_nil,
    Nat.zero_add]
  rw [if_neg hne]
  unfold procLine at hp
  by_cases hsp : (rtrim (b ++ [10])).head? = some 32 ∨ (rtrim (b ++ [10])).head? = some 9
  · rw [if_pos hsp] at hp ⊢
    cases cont with
    | none => simp at hp
    | some kv =>
      simp only [Option.some.injEq, Prod.mk.injEq] at hp
      obtain ⟨h1, h2⟩ := hp
      dsimp only
      rw [h1, h2]
  · rw [if_neg hsp] at hp ⊢
    cases hf : List.findIdx? (fun x => x == 58) (rtrim (b ++ [10])) with
    | none => rw [hf] at hp; simp at hp
    | some i =>
      rw [hf] at hp
      simp only [Option.some.injEq, Prod.mk.injEq] at hp
      obtain ⟨h1, h2⟩ := hp
      dsimp only
      rw [h1, h2]

theorem headerLoopF_lines (lines : List (List Nat)) :
    ∀ (fuel : Nat) (rest : List Nat) (sum vlen hl : Nat)
      (cont cont2 : Option (CaseString × List Nat)) (m m2 : HeaderMap),
      (∀ l ∈ lines, IsLineGood l) →
      procLines lines cont m = some (cont2, m2) →
      (catLines lines ++ 13 :: 10 :: rest).length < fuel →
      headerLoopF fuel (catLines lines ++ 13 :: 10 :: rest) sum vlen hl cont m =
        LoopOut.brk m2 cont2 (sum + ((catLines lines).length + 2))
          (hl + ((catLines lines).length + 2)) rest := by
  induction lines with
  | nil =>
    intro fuel rest sum vlen hl cont cont2 m m2 _hg hp hf
    cases fuel with
    | zero => simp at hf
    | succ f =>
      simp only [procLines, Option.some.injEq, Prod.mk.injEq] at hp
      obtain ⟨h1, h2⟩ := hp
      rw [← h1, ← h2]
      simp only [catLines, List.nil_append, List.length_nil, Nat.zero_add]
      rfl
  | cons l ls ih =>
    intro fuel rest sum vlen hl cont cont2 m m2 hg hp hf
    obtain ⟨⟨b, hlb, hb⟩, hne⟩ := hg l (List.mem_cons_self l ls)
    subst hlb
    cases fuel with
    | zero => simp at hf
    | succ f =>
      simp only [procLines] at hp
      cases hpl : procLine (b ++ [10]) cont m with
      | none => rw [hpl] at hp; simp at hp
      | some cm =>
        rw [hpl] at hp
        obtain ⟨cont1, m1⟩ := cm
        dsimp only at hp
        have hs : catLines ((b ++ [10]) :: ls) ++ 13 :: 10 :: rest
            = b ++ 10 :: (catLines ls ++ 13 :: 10 :: rest) := by
          simp [catLines]
        rw [hs, headerLoopF_step f b _ sum vlen hl cont cont1 m m1 hb hne hpl]
        rw [ih f rest (sum + (b.length + 1)) vlen (hl + (b.length + 1)) cont1 cont2 m1 m2
              (fun x hx => hg x (List.mem_cons_of_mem _ hx)) hp
              (by simp only [catLines, List.length_append, List.length_cons] at hf ⊢; omega)]
        have hlen : (catLines ((b ++ [10]) :: ls)).length
            = b.length + 1 + (catLines ls).length := by
          simp only [catLines, List.length_append, List.length_cons, List.length_nil]
          try omega
        have e1 : sum + (b.length + 1) + ((catLines ls).length + 2)
            = sum + (b.length + 1 + (catLines ls).length + 2) := by omega
        have e2 : hl + (b.length + 1) + ((catLines ls).length + 2)
            = hl + (b.length + 1 + (catLines ls).length + 2) := by omega
        rw [hlen, e1, e2]

theorem parse_headers (vbody : List Nat) (lines : List (List Nat)) (rest2 : List Nat)
    (sum : Nat) (cont : Option (CaseString × List Nat)) (m0 : HeaderMap)
    (hv : 10 ∉ vbody)
    (hw : listStartsWith (rtrim (vbody ++ [10])) warcMark = true)
    (hlines : ∀ l ∈ lines, IsLineGood l)
    (hproc : procLines lines none [] = some (cont, m0)) :
    WarcRecord.parse (vbody ++ 10 :: (catLines lines ++ 13 :: 10 :: rest2)) sum =
      parseTail (flushCont cont m0) (rtrim (vbody ++ [10]))
        (sum + (vbody.length + 1) + ((catLines lines).length + 2))
        (vbody.length + 1) ((catLines lines).length + 2) rest2 := by
  unfold WarcRecord.parse headerLoop
  rw [readLine_append vbody _ hv]
  dsimp only
  rw [if_neg (by simp : ¬ (vbody ++ [10] = [])), if_neg (by simp [hw])]
  rw [headerLoopF_lines lines _ rest2 _ _ _ none cont [] m0 hlines hproc
        (Nat.lt_succ_self _)]
  dsimp only
  simp only [List.length_append, List.length_cons, List.length_nil, Nat.zero_add]

/-- Claim C2: for every well-formed record whose on-wire length is `L`
(version-line bytes, plus header-block bytes including the blank line,
plus `Content-Length` content bytes, plus 4 trailer bytes),
`WarcRecord::parse` returns `Ok` and increases the byte accumulator by
exactly `L`. Well-formedness is expressed on the wire shape `encodeRec`:
the version line ends in LF and starts (after trimming) with `WARC/1.`,
every header line is a proper line other than the blank one, the header
block processes without error (`procLines`), and the resulting map binds
`Content-Length` (case-insensitively) to a numeral equal to the content
length. -/
theorem claim_C2_wellformed_record_consumes_exact_length
    (vbody : List Nat) (lines : List (List Nat)) (content rest : List Nat)
    (sum n : Nat) (cont : Option (CaseString × List Nat)) (m0 : HeaderMap)
    (clv : List Nat)
    (hv : 10 ∉ vbody)
    (hw : listStartsWith (rtrim (vbody ++ [10])) warcMark = true)
    (hlines : ∀ l ∈ lines, IsLineGood l)
    (hproc : procLines lines none [] = some (cont, m0))
    (hcl : hmGet (CaseString.fromList (strBytes "Content-Length"))
             (flushCont cont m0) = some clv)
    (hn : parseUsize clv = some n)
    (hc : content.length = n) :
    WarcRecord.parse (encodeRec vbody lines content rest) sum =
      (Except.ok ⟨rtrim (vbody ++ [10]), flushCont cont m0, content⟩,
       sum + ((vbody.length + 1) + ((catLines lines).length + 2)
              + content.length + 4),
       rest) := by
  unfold encodeRec
  rw [parse_headers vbody lines _ sum cont m0 hv hw hlines hproc]
  unfold parseTail
  rw [hcl]
  dsimp only
  rw [hn]
  dsimp only
  rw [← hc]
  have h1 : content ++ 13 :: 10 :: 13 :: 10 :: rest
      = content ++ ([13, 10, 13, 10] ++ rest) := rfl
  rw [h1, readExact_append]
  dsimp only
  unfold readTrailer
  have h4 : readExact 4 ([13, 10, 13, 10] ++ rest)
      = some ([13, 10, 13, 10], rest) := readExact_append [13, 10, 13, 10] rest
  rw [h4]
  dsimp only
  rw [if_pos rfl]
  simp only [Prod.mk.injEq, true_and, and_true]
  omega


/-- Claim C4: after reading the content block, `WarcRecord::parse` (via
its trailer step `readTrailer`, invoked in `parseTail` immediately after
the content `read_exact`) reads exactly 4 more bytes: a short read yields
an I/O error, and 4 bytes different from CR LF CR LF yield
`Malformed "No double linefeed after record content"`; 4 correct bytes
succeed, consuming exactly them. -/
theorem claim_C4_trailer_step :
    (∀ (s : List Nat) (sum v h c : Nat), s.length < 4 →
      readTrailer s sum v h c = (Except.error WarcError.ioError, sum - v - h - c, s)) ∧
    (∀ (lf rest : List Nat) (sum v h c : Nat), lf.length = 4 → lf ≠ [13, 10, 13, 10] →
      readTrailer (lf ++ rest) sum v h c =
        (Except.error (WarcError.Malformed "No double linefeed after record content"),
         sum + 4 - v - h - c, rest)) ∧
    (∀ (rest : List Nat) (sum v h c : Nat),
      readTrailer ([13, 10, 13, 10] ++ rest) sum v h c = (Except.ok (), sum + 4, rest)) := by
  refine ⟨?_, ?_, ?_⟩
  · intro s sum v h c hs
    unfold readTrailer readExact
    rw [if_neg (by omega)]
  · intro lf rest sum v h c hlen hne
    unfold readTrailer
    have h4 : readExact 4 (lf ++ rest) = some (lf, rest) := by
      rw [← hlen]; exact readExact_append lf rest
    rw [h4]
    dsimp only
    rw [if_neg hne]
  · intro rest sum v h c
    unfold readTrailer
    have h4 : readExact 4 ([13, 10, 13, 10] ++ rest) = some ([13, 10, 13, 10], rest) :=
      readExact_append [13, 10, 13, 10] rest
    rw [h4]
    dsimp only
    rw [if_pos rfl]

/-- Witness for C4 at concrete inputs: a 2-byte stream ends short (I/O
error), the 4 bytes `"abcd"` mismatch (Malformed), and a correct trailer
succeeds. -/
theorem claim_C4_witness :
    readTrailer [1, 2] 9 1 2 3 = (Except.error WarcError.ioError, 3, [1, 2]) ∧
    readTrailer (strBytes "abcd") 9 1 2 3 =
      (Except.error (WarcError.Malformed "No double linefeed after record content"),
       7, []) ∧
    readTrailer [13, 10, 13, 10] 9 1 2 3 = (Except.ok (), 13, []) :=
  ⟨claim_C4_trailer_step.1 [1, 2] 9 1 2 3 (by decide),
   claim_C4_trailer_step.2.1 (strBytes "abcd") [] 9 1 2 3 (by decide) (by decide),
   claim_C4_trailer_step.2.2 [] 9 1 2 3⟩

/-- Claim C5: after the header block is parsed, `WarcRecord::parse` looks
up `"Content-Length"` case-insensitively (the lookup key is normalized by
`CaseString.fromList`, exactly as every stored key is): an absent key
yields `Malformed "Content-Length is missing"`, a present but non-numeric
value yields `Malformed "Content-Length is not a number"`; in both cases
the accumulator is rolled back to its pre-record value.  The closing
conjunct exercises the case-insensitivity: a record declaring
`CONTENT-LENGTH` parses successfully. -/
theorem claim_C5_content_length_errors :
    (∀ (vbody : List Nat) (lines : List (List Nat)) (rest2 : List Nat) (sum : Nat)
       (cont : Option (CaseString × List Nat)) (m0 : HeaderMap),
      10 ∉ vbody →
      listStartsWith (rtrim (vbody ++ [10])) warcMark = true →
      (∀ l ∈ lines, IsLineGood l) →
      procLines lines none [] = some (cont, m0) →
      hmGet (CaseString.fromList (strBytes "Content-Length")) (flushCont cont m0) = none →
      WarcRecord.parse (vbody ++ 10 :: (catLines lines ++ 13 :: 10 :: rest2)) sum =
        (Except.error (WarcError.Malformed "Content-Length is missing"), sum, rest2)) ∧
    (∀ (vbody : List Nat) (lines : List (List Nat)) (rest2 : List Nat) (sum : Nat)
       (cont : Option (CaseString × List Nat)) (m0 : HeaderMap) (clv : List Nat),
      10 ∉ vbody →
      listStartsWith (rtrim (vbody ++ [10])) warcMark = true →
      (∀ l ∈ lines, IsLineGood l) →
      procLines lines none [] = some (cont, m0) →
      hmGet (CaseString.fromList (strBytes "Content-Length")) (flushCont cont m0) = some clv →
      parseUsize clv = none →
      WarcRecord.parse (vbody ++ 10 :: (catLines lines ++ 13 :: 10 :: rest2)) sum =
        (Except.error (WarcError.Malformed "Content-Length is not a number"), sum, rest2)) ∧
    ((WarcRecord.parse (strBytes "WARC/1.1\r\nCONTENT-LENGTH: 0\r\n\r\n\r\n\r\n") 0).1
      = Except.ok ⟨strBytes "WARC/1.1",
          [(CaseString.fromList (strBytes "Content-Length"), strBytes "0")], []⟩) := by
  refine ⟨?_, ?_, by decide⟩
  · intro vbody lines rest2 sum cont m0 hv hw hlines hproc hnone
    rw [parse_headers vbody lines rest2 sum cont m0 hv hw hlines hproc]
    unfold parseTail
    rw [hnone]
    simp only [Prod.mk.injEq, true_and, and_true]
    omega
  · intro vbody lines rest2 sum cont m0 clv hv hw hlines hproc hsome hbad
    rw [parse_headers vbody lines rest2 sum cont m0 hv hw hlines hproc]
    unfold parseTail
    rw [hsome]
    dsimp only
    rw [hbad]
    simp only [Prod.mk.injEq, true_and, and_true]
    omega

/-- Witness for C5: a record without `Content-Length` fails with the
missing-header message, and a record with `Content-Length: abc` fails with
the not-a-number message, each leaving the accumulator at its initial
value. -/
theorem claim_C5_witness :
    WarcRecord.parse (strBytes "WARC/1.1\r" ++ 10 ::
        (catLines [strBytes "WARC-Type: warcinfo\r\n"] ++ 13 :: 10 :: [])) 3 =
      (Except.error (WarcError.Malformed "Content-Length is missing"), 3, []) ∧
    WarcRecord.parse (strBytes "WARC/1.1\r" ++ 10 ::
        (catLines [strBytes "Content-Length: abc\r\n"] ++ 13 :: 10 :: [])) 3 =
      (Except.error (WarcError.Malformed "Content-Length is not a number"), 3, []) :=
  ⟨claim_C5_content_length_errors.1 (strBytes "WARC/1.1\r")
      [strBytes "WARC-Type: warcinfo\r\n"] [] 3
      (some (CaseString.fromList (strBytes "WARC-Type"), strBytes "warcinfo")) []
      (by decide) (by decide)
      (by
        intro l hl
        simp only [List.mem_cons, List.not_mem_nil, or_false] at hl
        subst hl
        exact ⟨⟨strBytes "WARC-Type: warcinfo\r", by decide, by decide⟩, by decide⟩)
      (by decide) (by decide),
   claim_C5_content_length_errors.2.1 (strBytes "WARC/1.1\r")
      [strBytes "Content-Length: abc\r\n"] [] 3
      (some (CaseString.fromList (strBytes "Content-Length"), strBytes "abc")) []
      (strBytes "abc")
      (by decide) (by decide)
      (by
        intro l hl
        simp only [List.mem_cons, List.not_mem_nil, or_false] at hl
        subst hl
        exact ⟨⟨strBytes "Content-Length: abc\r", by decide, by decide⟩, by decide⟩)
      (by decide) (by decide) (by decide)⟩

/-- Claim C6: for the first line read by `WarcRecord::parse`, an empty
read (immediate end of input) yields the internal `EOF`
(clean-end-of-stream) result, which `WarcReader::next` converts to an end
of sequence rather than an error; and a non-empty line that, after
trimming, does not start with the literal `WARC/1.` yields
`Malformed "Unknown WARC version"` with the accumulator rolled back. -/
theorem claim_C6_version_line :
    (∀ sum : Nat, WarcRecord.parse [] sum = (Except.error WarcError.EOF, sum, [])) ∧
    (∀ r : WarcReader, r.read = [] → r.valid_state = true →
      (WarcReader.next r).1 = none) ∧
    (∀ (input : List Nat) (sum : Nat), (readLine input).1 ≠ [] →
      listStartsWith (rtrim (readLine input).1) warcMark = false →
      WarcRecord.parse input sum =
        (Except.error (WarcError.Malformed "Unknown WARC version"), sum,
         (readLine input).2)) := by
  refine ⟨fun _ => rfl, ?_, ?_⟩
  · intro r hread hvalid
    obtain ⟨rd, sm, vs⟩ := r
    dsimp only at hread hvalid
    subst hread
    subst hvalid
    unfold WarcReader.next
    rw [if_neg (by simp)]
    rfl
  · intro input sum h0 hw
    unfold WarcRecord.parse
    rw [if_neg h0, if_pos hw]
    simp only [Prod.mk.injEq, true_and, and_true]
    omega

/-- Witness for C6: a reader over the empty stream yields nothing, and the
stream `"X\x0d\n"` (non-empty line, wrong version mark) fails with the
unknown-version message leaving the accumulator at its initial value. -/
theorem claim_C6_witness :
    (WarcReader.next ⟨[], 5, true⟩).1 = none ∧
    WarcRecord.parse (strBytes "X\r\n") 7 =
      (Except.error (WarcError.Malformed "Unknown WARC version"), 7, []) :=
  ⟨claim_C6_version_line.2.1 ⟨[], 5, true⟩ rfl rfl,
   by
    have h := claim_C6_version_line.2.2 (strBytes "X\r\n") 7 (by decide) (by decide)
    rw [h]
    decide⟩

/-- Claim C7: inside the header loop, a line that (after right-trimming)
begins with a space or tab extends the pending header's value by a newline
followed by the whitespace-trimmed remainder of the line; if there is no
pending header the loop fails with `Malformed "Invalid header block"`.
The closing conjunct is the spec's example: lines `X: a` and ` b` produce
the value `"a\nb"`. -/
theorem claim_C7_continuation_lines :
    (∀ (fuel : Nat) (s : List Nat) (sum vlen hl : Nat) (k : CaseString)
       (v : List Nat) (m : HeaderMap),
      ((rtrim (readLine s).1).head? = some 32 ∨ (rtrim (readLine s).1).head? = some 9) →
      headerLoopF (fuel + 1) s sum vlen hl (some (k, v)) m =
        headerLoopF fuel (readLine s).2 (sum + (readLine s).1.length) vlen
          (hl + (readLine s).1.length)
          (some (k, v ++ 10 :: trimBytes (rtrim (readLine s).1))) m) ∧
    (∀ (fuel : Nat) (s : List Nat) (sum vlen hl : Nat) (m : HeaderMap),
      ((rtrim (readLine s).1).head? = some 32 ∨ (rtrim (readLine s).1).head? = some 9) →
      headerLoopF (fuel + 1) s sum vlen hl none m =
        LoopOut.err (WarcError.Malformed "Invalid header block")
          (sum + (readLine s).1.length - vlen - (hl + (readLine s).1.length))
          (readLine s).2) ∧
    ((WarcRecord.parse (strBytes "WARC/1.1\r\nX: a\r\n b\r\nContent-Length: 0\r\n\r\n\r\n\r\n") 0).1
      = Except.ok ⟨strBytes "WARC/1.1",
          [(CaseString.fromList (strBytes "X"), strBytes "a\nb"),
           (CaseString.fromList (strBytes "Content-Length"), strBytes "0")], []⟩) := by
  refine ⟨?_, ?_, by decide⟩
  · intro fuel s sum vlen hl k v m hsp
    have hne : (readLine s).1 ≠ [13, 10] := by
      intro h
      rw [h] at hsp
      have : rtrim [13, 10] = ([] : List Nat) := by decide
      rw [this] at hsp
      simp at hsp
    simp only [headerLoopF]
    rw [if_neg hne, if_pos hsp]
  · intro fuel s sum vlen hl m hsp
    have hne : (readLine s).1 ≠ [13, 10] := by
      intro h
      rw [h] at hsp
      have : rtrim [13, 10] = ([] : List Nat) := by decide
      rw [this] at hsp
      simp at hsp
    simp only [headerLoopF]
    rw [if_neg hne, if_pos hsp]

/-- Witness for C7: one continuation step on the concrete stream
`" b\x0d\n"` extends the pending value of `X` from `"a"` to `"a\nb"`, and
the same stream with no pending header fails with the invalid-header-block
message. -/
theorem claim_C7_witness :
    headerLoopF 3 (strBytes " b\r\n") 12 10 2
        (some (CaseString.fromList (strBytes "X"), strBytes "a")) [] =
      headerLoopF 2 [] (12 + 4) 10 (2 + 4)
        (some (CaseString.fromList (strBytes "X"), strBytes "a\nb")) [] ∧
    headerLoopF 3 (strBytes " b\r\n") 12 10 2 none [] =
      LoopOut.err (WarcError.Malformed "Invalid header block") (12 + 4 - 10 - (2 + 4)) [] :=
  ⟨by
    have h := claim_C7_continuation_lines.1 2 (strBytes " b\r\n") 12 10 2
      (CaseString.fromList (strBytes "X")) (strBytes "a") [] (by decide)
    rw [h]
    decide,
   by
    have h := claim_C7_continuation_lines.2.1 2 (strBytes " b\r\n") 12 10 2 [] (by decide)
    rw [h]
    decide⟩

/-- Claim C3: once `WarcReader::next` has yielded a `Malformed` or I/O
error (any yielded `Except.error`; the clean `EOF` is never yielded),
every subsequent call yields nothing, regardless of remaining bytes in
the source; so the first non-clean error is yielded exactly once. -/
theorem claim_C3_reader_poisoned_after_error (r : WarcReader) (e : WarcError)
    (h : (WarcReader.next r).1 = some (Except.error e)) (k : Nat) :
    (WarcReader.next (WarcReader.skip (WarcReader.next r).2 k)).1 = none := by
  have hpoison : ((WarcReader.next r).2).valid_state = false := by
    unfold WarcReader.next at h ⊢
    by_cases hv : r.valid_state = false
    · rw [if_pos hv] at h
      simp at h
    · rw [if_neg hv] at h ⊢
      rcases hp : WarcRecord.parse r.read r.sum with ⟨res, sum2, rest⟩
      rw [hp] at h
      cases res with
      | ok item => simp at h
      | error e2 =>
        cases e2 with
        | EOF => simp at h
        | Malformed msg => rfl
        | ioError => rfl
  have hstep : ∀ q : WarcReader, q.valid_state = false → WarcReader.next q = (none, q) := by
    intro q hq
    unfold WarcReader.next
    rw [if_pos hq]
  have hskip : ∀ (j : Nat) (q : WarcReader), q.valid_state = false →
      WarcReader.skip q j = q := by
    intro j
    induction j with
    | zero => intro q _; rfl
    | succ jj ihj =>
      intro q hq
      unfold WarcReader.skip
      rw [hstep q hq]
      exact ihj q hq
  rw [hskip k _ hpoison, hstep _ hpoison]

/-- Witness for C3: the stream starts with a bad version line and then
contains a perfectly valid record; the first pull yields the error, and
the pull after skipping two further pulls still yields nothing. -/
theorem claim_C3_witness :
    (WarcReader.next (WarcReader.skip
        (WarcReader.next (WarcReader.new
          (strBytes "X\r\nWARC/1.1\r\nContent-Length: 0\r\n\r\n\r\n\r\n"))).2 2)).1 = none :=
  claim_C3_reader_poisoned_after_error
    (WarcReader.new (strBytes "X\r\nWARC/1.1\r\nContent-Length: 0\r\n\r\n\r\n\r\n"))
    (WarcError.Malformed "Unknown WARC version") (by decide) 2

/-- Claim C8: `CaseString` equality depends solely on the ASCII-lowercased
normalized form: `from s = from t` iff `lowercase s = lowercase t`;
conversion back to plain text yields the normalized form, not the original
casing; header lookups with any casing of the same key return the same
value; and (covering hashing, which Rust derives on the same single stored
field) every function of a `CaseString` agrees on differently-cased
constructions of the same key. -/
theorem claim_C8_casestring_normalization :
    (∀ s t : List Nat,
      CaseString.fromList s = CaseString.fromList t ↔ lowerAscii s = lowerAscii t) ∧
    (∀ s : List Nat, CaseString.toList (CaseString.fromList s) = lowerAscii s) ∧
    (∀ (s t : List Nat) (m : HeaderMap), lowerAscii s = lowerAscii t →
      hmGet (CaseString.fromList s) m = hmGet (CaseString.fromList t) m) ∧
    (∀ (f : CaseString → Nat) (s t : List Nat), lowerAscii s = lowerAscii t →
      f (CaseString.fromList s) = f (CaseString.fromList t)) := by
  refine ⟨?_, fun _ => rfl, ?_, ?_⟩
  · intro s t
    constructor
    · intro h
      exact congrArg CaseString.inner h
    · intro h
      exact congrArg CaseString.mk h
  · intro s t m h
    rw [show CaseString.fromList s = CaseString.fromList t from congrArg CaseString.mk h]
  · intro f s t h
    rw [show CaseString.fromList s = CaseString.fromList t from congrArg CaseString.mk h]

/-- Witness for C8: the keys `Content-Type`, `content-type` and
`CONTENT-TYPE` look up the same value in a concrete header map. -/
theorem claim_C8_witness :
    hmGet (CaseString.fromList (strBytes "Content-Type"))
        [(CaseString.fromList (strBytes "content-type"), strBytes "text/plain")] =
      hmGet (CaseString.fromList (strBytes "CONTENT-TYPE"))
        [(CaseString.fromList (strBytes "content-type"), strBytes "text/plain")] ∧
    CaseString.fromList (strBytes "HELLO!") = CaseString.fromList (strBytes "hello!") :=
  ⟨claim_C8_casestring_normalization.2.2.1 (strBytes "Content-Type")
      (strBytes "CONTENT-TYPE")
      [(CaseString.fromList (strBytes "content-type"), strBytes "text/plain")]
      (by decide),
   (claim_C8_casestring_normalization.1 (strBytes "HELLO!") (strBytes "hello!")).2
      (by decide)⟩

theorem mem_keys_hmInsert (k k2 : CaseString) (v : List Nat) (m : HeaderMap)
    (h : k2 ∈ (hmInsert k v m).map Prod.fst) : k2 = k ∨ k2 ∈ m.map Prod.fst := by
  induction m with
  | nil =>
    simp only [hmInsert, List.map_cons, List.map_nil, List.mem_singleton] at h
    exact Or.inl h
  | cons p rest ih =>
    obtain ⟨k3, v3⟩ := p
    simp only [hmInsert] at h
    by_cases hk : k3 = k
    · rw [if_pos hk] at h
      simp only [List.map_cons, List.mem_cons] at h ⊢
      rcases h with h | h
      · exact Or.inl h
      · exact Or.inr (Or.inr h)
    · rw [if_neg hk] at h
      simp only [List.map_cons, List.mem_cons] at h ⊢
      rcases h with h | h
      · exact Or.inr (Or.inl h)
      · rcases ih h with h1 | h1
        · exact Or.inl h1
        · exact Or.inr (Or.inr h1)

theorem nodup_hmInsert (k : CaseString) (v : List Nat) (m : HeaderMap)
    (h : (m.map Prod.fst).Nodup) : ((hmInsert k v m).map Prod.fst).Nodup := by
  induction m with
  | nil => simp [hmInsert]
  | cons p rest ih =>
    obtain ⟨k3, v3⟩ := p
    simp only [List.map_cons, List.nodup_cons] at h
    obtain ⟨hnotin, hnd⟩ := h
    simp only [hmInsert]
    by_cases hk : k3 = k
    · rw [if_pos hk]
      subst hk
      simp only [List.map_cons, List.nodup_cons]
      exact ⟨hnotin, hnd⟩
    · rw [if_neg hk]
      simp only [List.map_cons, List.nodup_cons]
      refine ⟨?_, ih hnd⟩
      intro hmem
      rcases mem_keys_hmInsert k k3 v rest hmem with h1 | h1
      · exact hk h1
      · exact hnotin h1

theorem hmGet_hmInsert_self (k : CaseString) (v : List Nat) (m : HeaderMap) :
    hmGet k (hmInsert k v m) = some v := by
  induction m with
  | nil => simp [hmInsert, hmGet]
  | cons p rest ih =>
    obtain ⟨k3, v3⟩ := p
    simp only [hmInsert]
    by_cases hk : k3 = k
    · rw [if_pos hk]
      simp [hmGet]
    · rw [if_neg hk]
      simp only [hmGet, if_neg hk]
      exact ih

theorem nodup_flushCont (cont : Option (CaseString × List Nat)) (m : HeaderMap)
    (h : (m.map Prod.fst).Nodup) : ((flushCont cont m).map Prod.fst).Nodup := by
  cases cont with
  | none => exact h
  | some kv => exact nodup_hmInsert kv.1 kv.2 m h

theorem headerLoopF_nodup (fuel : Nat) :
    ∀ (s : List Nat) (sum vlen hl : Nat) (cont : Option (CaseString × List Nat))
      (m m2 : HeaderMap) (cont2 : Option (CaseString × List Nat)) (sum2 hl2 : Nat)
      (rest : List Nat),
      (m.map Prod.fst).Nodup →
      headerLoopF fuel s sum vlen hl cont m = LoopOut.brk m2 cont2 sum2 hl2 rest →
      (m2.map Prod.fst).Nodup := by
  induction fuel with
  | zero =>
    intro s sum vlen hl cont m m2 cont2 sum2 hl2 rest _ hloop
    simp [headerLoopF] at hloop
  | succ f ih =>
    intro s sum vlen hl cont m m2 cont2 sum2 hl2 rest hnd hloop
    simp only [headerLoopF] at hloop
    by_cases hbl : (readLine s).1 = [13, 10]
    · rw [if_pos hbl] at hloop
      simp only [LoopOut.brk.injEq] at hloop
      obtain ⟨h1, _⟩ := hloop
      exact h1 ▸ hnd
    · rw [if_neg hbl] at hloop
      by_cases hsp : (rtrim (readLine s).1).head? = some 32
          ∨ (rtrim (readLine s).1).head? = some 9
      · rw [if_pos hsp] at hloop
        cases cont with
        | some kv =>
          dsimp only at hloop
          exact ih _ _ _ _ _ _ _ _ _ _ _ hnd hloop
        | none => simp at hloop
      · rw [if_neg hsp] at hloop
        cases hfi : List.findIdx? (fun x => x == 58) (rtrim (readLine s).1) with
        | some i =>
          rw [hfi] at hloop
          dsimp only at hloop
          exact ih _ _ _ _ _ _ _ _ _ _ _ (nodup_flushCont cont m hnd) hloop
        | none =>
          rw [hfi] at hloop
          simp at hloop

theorem parseTail_ok_header (header : HeaderMap) (versionT : List Nat)
    (sum2 vlen hl : Nat) (s2 : List Nat) (rec : WarcRecord) (sum4 : Nat)
    (s4 : List Nat)
    (h : parseTail header versionT sum2 vlen hl s2 = (Except.ok rec, sum4, s4)) :
    rec.header = header := by
  unfold parseTail at h
  cases hget : hmGet (CaseString.fromList (strBytes "Content-Length")) header with
  | none => rw [hget] at h; simp at h
  | some clv =>
    rw [hget] at h
    dsimp only at h
    cases hn : parseUsize clv with
    | none => rw [hn] at h; simp at h
    | some n =>
      rw [hn] at h
      dsimp only at h
      cases hre : readExact n s2 with
      | none => rw [hre] at h; simp at h
      | some cs =>
        rw [hre] at h
        obtain ⟨content, s3⟩ := cs
        dsimp only at h
        rcases hrt : readTrailer s3 (sum2 + n) vlen hl n with ⟨res, sum5, s5⟩
        rw [hrt] at h
        cases res with
        | error e2 => simp at h
        | ok u =>
          simp only [Prod.mk.injEq, Except.ok.injEq] at h
          obtain ⟨h1, _⟩ := h
          rw [← h1]

theorem parse_ok_header_nodup (input : List Nat) (sum : Nat) (rec : WarcRecord)
    (sum2 : Nat) (rest2 : List Nat)
    (h : WarcRecord.parse input sum = (Except.ok rec, sum2, rest2)) :
    (rec.header.map Prod.fst).Nodup := by
  unfold WarcRecord.parse at h
  by_cases h0 : (readLine input).1 = []
  · rw [if_pos h0] at h
    simp at h
  · rw [if_neg h0] at h
    by_cases h1 : listStartsWith (rtrim (readLine input).1) warcMark = false
    · rw [if_pos h1] at h
      simp at h
    · rw [if_neg h1] at h
      cases hloop : headerLoop (readLine input).2 (sum + (readLine input).1.length)
          (readLine input).1.length 0 none [] with
      | err e s2 r2 =>
        rw [hloop] at h
        simp at h
      | brk header0 cont s2 hl2 r2 =>
        rw [hloop] at h
        dsimp only at h
        have hh := parseTail_ok_header _ _ _ _ _ _ _ _ _ h
        rw [hh]
        unfold headerLoop at hloop
        exact nodup_flushCont cont header0
          (headerLoopF_nodup _ _ _ _ _ _ _ _ _ _ _ _ (by simp) hloop)

/-- Claim C9: whenever the header block contains several field lines whose
names agree after case normalization, the parsed record's header mapping
has exactly one entry per normalized key (its key list is duplicate-free
for every successfully parsed record), the later insertion overwrites the
earlier value (`hmInsert`/`hmGet` last-write-wins), and on the concrete
record with fields `A: one` and `a: two` the surviving value is `two`. -/
theorem claim_C9_duplicate_keys_last_wins :
    (∀ (input : List Nat) (sum : Nat) (rec : WarcRecord) (sum2 : Nat)
       (rest2 : List Nat),
      WarcRecord.parse input sum = (Except.ok rec, sum2, rest2) →
      (rec.header.map Prod.fst).Nodup) ∧
    (∀ (k : CaseString) (v : List Nat) (m : HeaderMap),
      hmGet k (hmInsert k v m) = some v) ∧
    ((WarcRecord.parse (strBytes "WARC/1.1\r\nA: one\r\na: two\r\nContent-Length: 0\r\n\r\n\r\n\r\n") 0).1
      = Except.ok ⟨strBytes "WARC/1.1",
          [(CaseString.fromList (strBytes "a"), strBytes "two"),
           (CaseString.fromList (strBytes "Content-Length"), strBytes "0")], []⟩) := by
  refine ⟨?_, ?_, by decide⟩
  · intro input sum rec sum2 rest2 h
    exact parse_ok_header_nodup input sum rec sum2 rest2 h
  · intro k v m
    exact hmGet_hmInsert_self k v m

/-- Witness for C9: the duplicate-key record parses with duplicate-free
keys, and re-inserting key `a` overwrites its old value. -/
theorem claim_C9_witness :
    (([(CaseString.fromList (strBytes "a"), strBytes "two"),
       (CaseString.fromList (strBytes "Content-Length"), strBytes "0")].map
        (Prod.fst : CaseString × List Nat → CaseString)).Nodup) ∧
    hmGet (CaseString.fromList (strBytes "a"))
        (hmInsert (CaseString.fromList (strBytes "a")) (strBytes "two")
          [(CaseString.fromList (strBytes "a"), strBytes "one")]) =
      some (strBytes "two") :=
  ⟨claim_C9_duplicate_keys_last_wins.1
      (strBytes "WARC/1.1\r\nA: one\r\na: two\r\nContent-Length: 0\r\n\r\n\r\n\r\n") 0
      ⟨strBytes "WARC/1.1",
        [(CaseString.fromList (strBytes "a"), strBytes "two"),
         (CaseString.fromList (strBytes "Content-Length"), strBytes "0")], []⟩
      51 [] (by decide),
   claim_C9_duplicate_keys_last_wins.2.1 (CaseString.fromList (strBytes "a"))
      (strBytes "two") [(CaseString.fromList (strBytes "a"), strBytes "one")]⟩

/-- Claim C10: if the input ends inside the header block (a line read
returns zero bytes before the terminating `"\x0d\n"` line), or if a blank
line is terminated by a bare `"\n"`, the header loop — and hence
`WarcRecord::parse` — fails with `Malformed "Invalid header field"`, not
an I/O error and not the clean end-of-stream result: only the exact line
`"\x0d\n"` terminates the block and a line that trims to empty has no
colon.  The first two conjuncts state this for the loop at the exact
trigger points (empty stream, bare-LF line) for arbitrary loop state; the
last two run `parse` end to end on a stream that stops right after the
version line and on one whose blank line is a bare LF. -/
theorem claim_C10_header_block_truncation :
    (∀ (fuel sum vlen hl : Nat) (cont : Option (CaseString × List Nat))
       (m : HeaderMap),
      headerLoopF (fuel + 1) [] sum vlen hl cont m =
        LoopOut.err (WarcError.Malformed "Invalid header field")
          (sum - vlen - hl) []) ∧
    (∀ (fuel : Nat) (rest : List Nat) (sum vlen hl : Nat)
       (cont : Option (CaseString × List Nat)) (m : HeaderMap),
      headerLoopF (fuel + 1) (10 :: rest) sum vlen hl cont m =
        LoopOut.err (WarcError.Malformed "Invalid header field")
          (sum + 1 - vlen - (hl + 1)) rest) ∧
    (WarcRecord.parse (strBytes "WARC/1.1\r\n") 7 =
      (Except.error (WarcError.Malformed "Invalid header field"), 7, [])) ∧
    (WarcRecord.parse (strBytes "WARC/1.1\r\n\nContent-Length: 0\r\n") 7 =
      (Except.error (WarcError.Malformed "Invalid header field"), 7,
       strBytes "Content-Length: 0\r\n")) :=
  ⟨fun _ _ _ _ _ _ => rfl, fun _ _ _ _ _ _ _ => rfl, by decide, by decide⟩

/-- Claim C1 (refuted, code bug): the spec demands that on any failure at
steps 2-6 the byte accumulator be rolled back exactly to the value it held
before the record's version line was read.  The code honors this in every
failure branch except the trailer comparison: there it has already added 4
for the trailer read but subtracts only `version_len + headers_len +
content_len` (lib.rs:256-262), leaving the accumulator 4 bytes above the
record boundary.  Concretely, a record whose 4 trailer bytes are `"abcd"`
fails at the trailer comparison and leaves the accumulator at 4 instead of
its initial value 0. -/
theorem claim_C1_trailer_mismatch_leaves_accumulator_raised :
    WarcRecord.parse (strBytes "WARC/1.1\r\nContent-Length: 0\r\n\r\nabcd") 0 =
      (Except.error (WarcError.Malformed "No double linefeed after record content"),
       4, []) ∧
    (WarcRecord.parse (strBytes "WARC/1.1\r\nContent-Length: 0\r\n\r\nabcd") 0).2.1 ≠ 0 :=
  ⟨by decide, by decide⟩

/-- Witness for C2: the spec's end-to-end record — version `WARC/1.1`,
headers `WARC-Type: warcinfo` and `Content-Length: 4`, content `test`,
correct trailer — parses to `Ok` and raises the accumulator by exactly its
on-wire length 10 + 42 + 4 + 4 = 60. -/
theorem claim_C2_witness :
    WarcRecord.parse (encodeRec (strBytes "WARC/1.1\r")
        [strBytes "WARC-Type: warcinfo\r\n", strBytes "Content-Length: 4\r\n"]
        (strBytes "test") []) 0 =
      (Except.ok ⟨rtrim (strBytes "WARC/1.1\r" ++ [10]),
        flushCont (some (CaseString.fromList (strBytes "Content-Length"), strBytes "4"))
          [(CaseString.fromList (strBytes "WARC-Type"), strBytes "warcinfo")],
        strBytes "test"⟩,
       0 + (((strBytes "WARC/1.1\r").length + 1)
            + ((catLines [strBytes "WARC-Type: warcinfo\r\n",
                          strBytes "Content-Length: 4\r\n"]).length + 2)
            + (strBytes "test").length + 4),
       []) :=
  claim_C2_wellformed_record_consumes_exact_length
    (strBytes "WARC/1.1\r")
    [strBytes "WARC-Type: warcinfo\r\n", strBytes "Content-Length: 4\r\n"]
    (strBytes "test") [] 0 4
    (some (CaseString.fromList (strBytes "Content-Length"), strBytes "4"))
    [(CaseString.fromList (strBytes "WARC-Type"), strBytes "warcinfo")]
    (strBytes "4")
    (by decide) (by decide)
    (by
      intro l hl
      simp only [List.mem_cons, List.not_mem_nil, or_false] at hl
      rcases hl with rfl | rfl
      · exact ⟨⟨strBytes "WARC-Type: warcinfo\r", by decide, by decide⟩, by decide⟩
      · exact ⟨⟨strBytes "Content-Length: 4\r", by decide, by decide⟩, by decide⟩)
    (by decide) (by decide) (by decide) (by decide)
